import Mathlib

/-!
# xlOil: the automation-backed range (`ExcelRange`)

A shallow embedding of `src/xlOil-COM/API/ExcelRange.cpp`, of the registry expansion of
`src/xlOilHelpers/Environment.cpp` and of the log-level translation of
`libs/xlOil_Python/PyCore.cpp`.

Conventions used throughout:

* `long`, `int`, `Range::row_t` and `Range::col_t` are modelled by `Int`.  The host grid has at
  most 2^20 rows and 2^14 columns, so none of the coordinate sums below can leave the 32-bit
  range; where a 32-bit pattern is compared instead (the `HRESULT` codes of `specialCells`)
  or a wider value is cast to `int` (the `size_t` counts of `trim`) the reduction modulo
  `2^32` is written out.
* A method of `ExcelRange` takes the host object returned by `com()` as its `self` argument.
* Host calls that the source wraps in `try ... XLO_RETHROW_COM_ERROR` are modelled on their
  successful path, except in `specialCells`, whose `catch` block is modelled in full.
* A `std::wstring` is the list of its characters; the regular expression `registryExpander`
  is embedded as the function that finds its leftmost match.
-/

namespace xloil

/-! ## The host's range object -/

/-- The readings the host gives for an `Excel::Range`: the 1-based `Row` and `Column` of its
top-left cell, and `Rows->Count`, `Columns->Count`. -/
structure ComRange where
  Row : Int
  Column : Int
  RowsCount : Int
  ColumnsCount : Int
deriving DecidableEq, Repr

/-- Host model of `range.Cells->Item[i][j]`: the single cell whose position is `(i, j)`,
counted from 1, relative to the top-left cell of `range`. -/
def ComRange.CellsItem (range : ComRange) (i j : Int) : ComRange :=
  { Row := range.Row + (i - 1), Column := range.Column + (j - 1),
    RowsCount := 1, ColumnsCount := 1 }

/-- Host model of `ws->GetRange(cell1, cell2)` on the owning worksheet: the rectangle spanned
by the two arguments. -/
def Worksheet.GetRange (cell1 cell2 : ComRange) : ComRange :=
  let top := min cell1.Row cell2.Row
  let left := min cell1.Column cell2.Column
  let bottom := max (cell1.Row + cell1.RowsCount - 1) (cell2.Row + cell2.RowsCount - 1)
  let right := max (cell1.Column + cell1.ColumnsCount - 1) (cell2.Column + cell2.ColumnsCount - 1)
  { Row := top, Column := left, RowsCount := bottom - top + 1, ColumnsCount := right - left + 1 }

/-! ## Host values -/

/-- A `double`, held as its 64-bit IEEE-754 pattern; nothing here computes with it. -/
structure Double where
  bits : Nat
deriving DecidableEq, Repr

/-- The host's `VARIANT`, one constructor per type tag (`vt`) met in this development, each
with the member of the union that belongs to the tag.  `VT_ARRAY` stands for
`VT_ARRAY | VT_VARIANT`, a two-dimensional `SAFEARRAY` listed row by row, and `other` for a
variant of any further type, given by the number of its tag. -/
inductive VARIANT where
  | VT_EMPTY
  | VT_NULL
  | VT_R8 (dblVal : Double)
  | VT_BSTR (bstrVal : String)
  | VT_ERROR (scode : Nat)
  | VT_BOOL (boolVal : Bool)
  | VT_UINT (uintVal : Nat)
  | VT_ARRAY (parray : List (List VARIANT))
  | other (vt : Nat)

/-- The test `v.vt == VT_BSTR`. -/
def VARIANT.isBSTR : VARIANT → Bool
  | .VT_BSTR _ => true
  | _ => false

/-- The constant `vtMissing` of `comutil.h`: `VT_ERROR` holding `DISP_E_PARAMNOTFOUND`. -/
def vtMissing : VARIANT := .VT_ERROR 0x80020004

/-- Whether a variant is the unsigned integer `n` (`VT_UINT`). -/
def VARIANT.isUINT (n : Nat) : VARIANT → Bool
  | .VT_UINT uintVal => uintVal == n
  | _ => false

/-- Whether a variant is the missing argument. -/
def VARIANT.isMissing : VARIANT → Bool
  | .VT_ERROR scode => scode == 0x80020004
  | _ => false

/-- The constructor `_variant_t(VARIANT& varSrc, bool fCopy)` of `comutil.h` called with
`fCopy = false`: the new `_variant_t` takes over the content of `varSrc`, and `varSrc` is left
with the tag `VT_EMPTY`.  The result is the new object and `varSrc` as it is afterwards. -/
def attachVariant (varSrc : VARIANT) : VARIANT × VARIANT :=
  (varSrc, .VT_EMPTY)

/-- Modelled from the spec: `COM::stringToVariant` is defined in `ComVariant.cpp`, which is not
among the sources; it wraps the text in a string (`VT_BSTR`) variant. -/
def stringToVariant (str : String) : VARIANT := .VT_BSTR str

/-- Modelled from the spec: the tagged value `ExcelObj` is declared in `ExcelObj.h`, which is
not among the sources.  It is one of number, text, boolean, error code, two-dimensional array,
empty (`Nil`) and missing. -/
inductive ExcelObj where
  | Num (d : Double)
  | Str (s : String)
  | Bool (b : Bool)
  | Err (code : Nat)
  | Multi (rows : List (List ExcelObj))
  | Nil
  | Missing

mutual
/-- Modelled from the spec: `COM::excelObjToVariant` is defined in `ComVariant.cpp`, which is
not among the sources; every scalar tag goes to the host scalar of the same kind and an array
to a host array, element by element in row-major order. -/
def excelObjToVariant : ExcelObj → VARIANT
  | .Num d => .VT_R8 d
  | .Str s => .VT_BSTR s
  | .Bool b => .VT_BOOL b
  | .Err code => .VT_ERROR code
  | .Multi rows => .VT_ARRAY (excelObjToVariantRows rows)
  | .Nil => .VT_EMPTY
  | .Missing => vtMissing
/-- The rows of an array, marshalled in order. -/
def excelObjToVariantRows : List (List ExcelObj) → List (List VARIANT)
  | [] => []
  | row :: rows => excelObjToVariantRow row :: excelObjToVariantRows rows
/-- The cells of one row, marshalled in order. -/
def excelObjToVariantRow : List ExcelObj → List VARIANT
  | [] => []
  | x :: xs => excelObjToVariant x :: excelObjToVariantRow xs
end

/-- The value of a 10 by 10 block whose rows 0 to 2 hold numbers in columns 0 and 1 and
whose other cells are empty. -/
def blockWithContent3x2 : VARIANT :=
  .VT_ARRAY (List.replicate 3 (List.replicate 2 (.VT_R8 ⟨0⟩) ++ List.replicate 8 .VT_EMPTY)
    ++ List.replicate 7 (List.replicate 10 .VT_EMPTY))

/-! ## Shape, bounds and sub-ranges -/

/-- The conversion `(int)n` of a `size_t` value `n`: the value is reduced modulo `2^32` and
read as a signed 32-bit number. -/
def castToInt (n : Nat) : Int :=
  if n % 2 ^ 32 < 2 ^ 31 then ((n % 2 ^ 32 : Nat) : Int)
  else ((n % 2 ^ 32 : Nat) : Int) - 2 ^ 32

namespace ExcelRange

/-- `ExcelRange::shape`: the live row and column counts. -/
def shape (self : ComRange) : Int × Int :=
  (self.RowsCount, self.ColumnsCount)

/-- `ExcelRange::bounds`: zero-based inclusive `(fromRow, fromCol, toRow, toCol)`. -/
def bounds (self : ComRange) : Int × Int × Int × Int :=
  let row := self.Row - 1
  let col := self.Column - 1
  (row, col, row + self.RowsCount - 1, col + self.ColumnsCount - 1)

/-- Modelled from the spec: `Range::size` is declared in `Range.h`, which is not among the
sources; it is the number of cells of the range, rows times columns of `shape()`. -/
def size (self : ComRange) : Int :=
  (shape self).1 * (shape self).2

/-- The values of `toRow` and `toCol` after the two `TO_END` tests at the top of
`ExcelRange::range`.  `TO_END` is the constant `Range::TO_END` of `Range.h`. -/
def resolveToEnd (TO_END : Int) (self : ComRange) (toRow toCol : Int) : Int × Int :=
  let toRow := if toRow = TO_END then self.Row + self.RowsCount else toRow
  let toCol := if toCol = TO_END then self.Column + self.ColumnsCount else toCol
  (toRow, toCol)

/-- The two index pairs `ExcelRange::range` hands to `cells->Item[..][..]`. -/
def rangeCellIndices (TO_END : Int) (self : ComRange) (fromRow fromCol toRow toCol : Int) :
    (Int × Int) × (Int × Int) :=
  let last := resolveToEnd TO_END self toRow toCol
  ((fromRow + 1, fromCol + 1), (last.1 + 1, last.2 + 1))

/-- `ExcelRange::range`: the sub-range is taken from the worksheet, between two cells looked
up through the parent's `Cells`. -/
def range (TO_END : Int) (self : ComRange) (fromRow fromCol toRow toCol : Int) : ComRange :=
  let idx := rangeCellIndices TO_END self fromRow fromCol toRow toCol
  Worksheet.GetRange (self.CellsItem idx.1.1 idx.1.2) (self.CellsItem idx.2.1 idx.2.2)

/-- The cell that `ExcelRange::value(i, j)` reads: `com().Cells->Item[i + 1][j + 1]`. -/
def valueCell (self : ComRange) (i j : Int) : ComRange :=
  self.CellsItem (i + 1) (j + 1)

/-- `ExcelRange::trim`.  `trimmedVariantArrayBounds` is `COM::trimmedVariantArrayBounds` of
`ComVariant.cpp` (not among the sources): `none` when it returns `false`, and
`some (nRows, nCols)` when it returns `true` with its two `size_t` out-parameters set.
`Value2` is the host property read through `com().Value2`.  The result is the host object of
the returned range; the first branch returns a copy of `*this`, and the last passes
`(int)nRows` and `(int)nCols` to `range`. -/
def trim (TO_END : Int) (trimmedVariantArrayBounds : VARIANT → Option (Nat × Nat))
    (Value2 : ComRange → VARIANT) (self : ComRange) : ComRange :=
  if size self = 1 then self
  else
    match trimmedVariantArrayBounds (Value2 self) with
    | none => self
    | some (nRows, nCols) =>
      let nRows := if nRows > 0 then nRows - 1 else nRows
      let nCols := if nCols > 0 then nCols - 1 else nCols
      range TO_END self 0 0 (castToInt nRows) (castToInt nCols)

end ExcelRange

/-! ## Formulas -/

/-- Modelled from the spec: the enumeration `Range::SetFormulaMode` is declared in `Range.h`,
which is not among the sources; its modes are array formula, legacy array and dynamic.
`ARRAY_FORMULA` and `OLD_ARRAY` are the names `setFormula` uses for the first two. -/
inductive SetFormulaMode where
  | DYNAMIC_ARRAY
  | ARRAY_FORMULA
  | OLD_ARRAY
deriving DecidableEq, Repr

/-- The host property that a `setFormula` call assigns, with the value it assigns. -/
inductive FormulaWrite where
  | FormulaArray (value : VARIANT)
  | PutFormula (value : VARIANT)
  | PutFormula2 (value : VARIANT)

/-- The three write paths, without the value written. -/
inductive WritePath where
  | FormulaArray
  | Formula
  | Formula2
deriving DecidableEq, Repr

/-- The path of a write. -/
def FormulaWrite.path : FormulaWrite → WritePath
  | .FormulaArray _ => .FormulaArray
  | .PutFormula _ => .Formula
  | .PutFormula2 _ => .Formula2

/-- The value of a write. -/
def FormulaWrite.value : FormulaWrite → VARIANT
  | .FormulaArray v => v
  | .PutFormula v => v
  | .PutFormula2 v => v

/-- The path the specification prescribes for `setFormula`: the legacy array-formula
assignment if the mode is `ArrayFormula` and the target spans more than one cell; otherwise the
legacy single-formula assignment if the mode is `LegacyArray` or the host does not support
dynamic arrays; otherwise the modern assignment. -/
def specifiedWritePath (mode : SetFormulaMode) (targetSize : Int) (dynamicArrays : Bool) :
    WritePath :=
  if mode = .ARRAY_FORMULA ∧ targetSize > 1 then .FormulaArray
  else if mode = .OLD_ARRAY ∨ dynamicArrays = false then .Formula
  else .Formula2

namespace ExcelRange

/-- `ExcelRange::setFormula(const std::wstring_view&, SetFormulaMode)`. -/
def setFormula (self : ComRange) (formula : String) (mode : SetFormulaMode) : FormulaWrite :=
  let value := stringToVariant formula
  if mode = .ARRAY_FORMULA ∧ size self > 1 then .FormulaArray value
  else if mode = .OLD_ARRAY then .PutFormula value
  else .PutFormula2 value

/-- `ExcelRange::setFormula(const ExcelObj&, SetFormulaMode)`.  `dynamicArrays` is the
function's static copy of `Environment::excelProcess().supportsDynamicArrays`, and `toVariant`
is `COM::excelObjToVariant`.  The line `auto value = _variant_t(v, false)` moves `v` into
`value`, and the test `v.vt == VT_BSTR` that follows reads `v` as the move has left it. -/
def setFormulaObj (toVariant : ExcelObj → VARIANT) (dynamicArrays : Bool) (self : ComRange)
    (formula : ExcelObj) (mode : SetFormulaMode) : FormulaWrite :=
  let v := toVariant formula
  let moved := attachVariant v
  let value := moved.1
  let v := moved.2
  if mode = .ARRAY_FORMULA ∧ v.isBSTR = true ∧ size self > 1 then .FormulaArray value
  else if mode = .OLD_ARRAY ∨ dynamicArrays = false then .PutFormula value
  else .PutFormula2 value

/-- `ExcelRange::hasFormula`, applied to the host's answer `com().HasFormula`. -/
def hasFormula (result : VARIANT) : Option Bool :=
  match result with
  | .VT_BOOL boolVal => some boolVal
  | _ => none

end ExcelRange

/-! ## Special cells -/

/-- A `_com_error`: the `HRESULT` returned by `Error()`, a signed 32-bit number, and the text
returned by `ErrorMessage()`. -/
structure ComError where
  Error : Int
  ErrorMessage : String
deriving DecidableEq, Repr

/-- Modelled from the spec: the exception types are declared outside the sources.
`ComBusyException` is `xloil::ComBusyException`, the distinct host-busy condition; `Exception`
is the generic failure raised by `XLO_THROW`, whose text is made of the error code in
hexadecimal and the error message, kept here as those two arguments. -/
inductive XloilError where
  | ComBusyException
  | Exception (code : Nat) (message : String)
deriving DecidableEq, Repr

/-- Modelled from the spec: the class `ExcelRange` is declared in `AppObjects.h`, which is not
among the sources.  A value is the host object it points to, or nothing for the empty range
made by the default constructor `ExcelRange()`. -/
structure ExcelRangeObj where
  ptr : Option ComRange
deriving DecidableEq, Repr

/-- The conversion of an `HRESULT` to `unsigned`: its 32-bit pattern. -/
def toUnsigned (hr : Int) : Nat := (hr % 2 ^ 32).toNat

namespace ExcelRange

/-- The arguments `specialCells` passes to the host's `SpecialCells`: the cell type and the
value kind.  `type` is the integer value of the `SpecialCells` enumerator, `values` the
unsigned value of the `ExcelType` mask, and `Constants`, `Formulas` the integer values of
`SpecialCells::Constants` and `SpecialCells::Formulas` (the enumeration is declared in
`Range.h`, not among the sources). -/
def specialCellsArgs (Constants Formulas : Int) (type : Int) (values : Nat) : Int × VARIANT :=
  let specialCellsValue := vtMissing
  let cellType := type
  let specialCellsValue :=
    if values ≠ 0 ∧ (type = Constants ∨ type = Formulas) then VARIANT.VT_UINT values
    else specialCellsValue
  (cellType, specialCellsValue)

/-- The `catch (_com_error&)` block of `specialCells`.  The comparisons are made on 32-bit
patterns, the `HRESULT` being converted to the unsigned type of the literal. `VBA_E_IGNORE` is
the constant of that name (defined outside the sources). -/
def specialCellsCatch (VBA_E_IGNORE : Int) (error : ComError) : Except XloilError ExcelRangeObj :=
  if toUnsigned error.Error = toUnsigned VBA_E_IGNORE then .error .ComBusyException
  else if toUnsigned error.Error = 0x800A03EC then .ok ⟨none⟩
  else .error (.Exception (toUnsigned error.Error) error.ErrorMessage)

/-- `ExcelRange::specialCells`.  `SpecialCells` is the host method `com().SpecialCells`, which
either returns a range or raises a `_com_error`. -/
def specialCells (VBA_E_IGNORE : Int) (Constants Formulas : Int)
    (SpecialCells : Int → VARIANT → Except ComError ComRange)
    (type : Int) (values : Nat) : Except XloilError ExcelRangeObj :=
  let args := specialCellsArgs Constants Formulas type values
  match SpecialCells args.1 args.2 with
  | .ok r => .ok ⟨some r⟩
  | .error error => specialCellsCatch VBA_E_IGNORE error

end ExcelRange

/-! ## Reading a formula -/

/-- The host's readings of the two formula properties of a range, `Formula` and `Formula2`. -/
structure FormulaProperties where
  Formula : VARIANT
  Formula2 : VARIANT

/-- `ExcelRange::formula`.  `dynamicArrays` is the function's static copy of
`Environment::excelProcess().supportsDynamicArrays`, `variantToExcelObj` is
`COM::variantToExcelObj` of `ComVariant.cpp` (not among the sources), and `com` holds what the
host answers for `com().Formula` and `com().Formula2`. -/
def ExcelRange.formula (variantToExcelObj : VARIANT → ExcelObj) (dynamicArrays : Bool)
    (com : FormulaProperties) : ExcelObj :=
  variantToExcelObj (if dynamicArrays then com.Formula2 else com.Formula)

/-! ## References made from a host range -/

/-- Modelled from the spec: the class `ExcelRef` is declared in `ExcelRef.h`, which is not
among the sources.  It is a range address: a sheet identifier and the zero-based, inclusive
bounding box given to its constructor. -/
structure ExcelRef where
  idSheet : Nat
  fromRow : Int
  fromCol : Int
  toRow : Int
  toCol : Int
deriving DecidableEq, Repr

/-- The bounding box of a reference, in the order of `bounds()`. -/
def ExcelRef.box (ref : ExcelRef) : Int × Int × Int × Int :=
  (ref.fromRow, ref.fromCol, ref.toRow, ref.toCol)

/-- `refFromComRange`.  `sheetId` is the sheet identifier the host returns for `xlSheetId`. -/
def refFromComRange (sheetId : Nat) (range : ComRange) : ExcelRef :=
  let nCols := range.ColumnsCount
  let nRows := range.RowsCount
  let fromRow := range.Row - 1
  let fromCol := range.Column - 1
  { idSheet := sheetId, fromRow := fromRow, fromCol := fromCol,
    toRow := fromRow + nRows - 1, toCol := fromCol + nCols - 1 }

/-! ## Log levels (`libs/xlOil_Python/PyCore.cpp`) -/

/-- A Python object as `toSpdLogLevel` sees it: an `int` (for which `PyLong_Check` holds) with
its value, or any other object with the text `py::str` gives for it. -/
inductive PyObject where
  | long (value : Int)
  | other (str : String)

/-- The interpreter's `PyLong_AsUnsignedLong`, for the 32-bit `unsigned long` of the platform:
the value itself when it fits, and `(unsigned long)-1` when it is negative or too large. -/
def PyLong_AsUnsignedLong (value : Int) : Nat :=
  if 0 ≤ value ∧ value < 2 ^ 32 then value.toNat else 2 ^ 32 - 1

namespace LogWriter

/-- `LogWriter::toSpdLogLevel`; the result is the integer value of the `level_enum`.
`from_str` is `spdlog::level::from_str`. -/
def toSpdLogLevel (from_str : String → Nat) (level : PyObject) : Nat :=
  match level with
  | .long value => min (PyLong_AsUnsignedLong value / 10) 6
  | .other str => from_str str

/-- `LogWriter::getLogLevel`, as a function of the logger's level. -/
def getLogLevel (level : Nat) : Nat :=
  level * 10

end LogWriter

/-! ## Registry strings (`src/xlOilHelpers/Environment.cpp`) -/

/-- A `std::wstring`, as the list of its characters. -/
abbrev wstring := List Char

/-- The three registry roots `getWindowsRegistryValue` knows. -/
inductive HKEY where
  | HKEY_LOCAL_MACHINE
  | HKEY_CURRENT_USER
  | HKEY_CLASSES_ROOT
deriving DecidableEq, Repr

/-- `str.rfind(c)`: the position of the last `c` in `str`; `none` stands for `npos`. -/
def rfind (c : Char) : wstring → Option Nat
  | [] => none
  | x :: xs =>
    match rfind c xs with
    | some i => some (i + 1)
    | none => if x = c then some 0 else none

/-- The root key `getWindowsRegistryValue` chooses for `hive`; `none` where it returns
`false` at once. -/
def registryRoot (hive : wstring) : Option HKEY :=
  if hive = ['H', 'K', 'L', 'M'] then some .HKEY_LOCAL_MACHINE
  else if hive = ['H', 'K', 'C', 'U'] then some .HKEY_CURRENT_USER
  else if hive = ['H', 'K', 'C', 'R'] then some .HKEY_CLASSES_ROOT
  else none

/-- The local `subKey` of `getWindowsRegistryValue`: `location.substr(0, lastSlash)`, which is
the whole of `location` when `rfind` gives `npos`. -/
def registrySubKey (location : wstring) : wstring :=
  match rfind '\\' location with
  | some lastSlash => location.take lastSlash
  | none => location

/-- The local `value` of `getWindowsRegistryValue`: the text after the last backslash, or the
empty string when `lastSlash + 1` is not below the size; for `npos` the sum wraps to 0. -/
def registryValueName (location : wstring) : wstring :=
  let afterSlash := match rfind '\\' location with
    | some lastSlash => lastSlash + 1
    | none => 0
  if afterSlash < location.length then location.drop afterSlash else []

/-- `getWindowsRegistryValue`.  The out-parameter `result` is an argument, and the function
returns its `bool` together with the value `result` has afterwards.  `RegGetValue` is the
Windows call, giving the text it leaves in `buffer` when it reports `ERROR_SUCCESS` and `none`
otherwise. -/
def getWindowsRegistryValue (RegGetValue : HKEY → wstring → wstring → Option wstring)
    (hive location result : wstring) : Bool × wstring :=
  match registryRoot hive with
  | none => (false, result)
  | some root =>
    match RegGetValue root (registrySubKey location) (registryValueName location) with
    | some buffer => (true, buffer)
    | none => (false, result)

/-- The character class `[A-Z]`. -/
def isUpperAZ (c : Char) : Bool :=
  decide ('A' ≤ c) && decide (c ≤ 'Z')

/-- A `std::wsmatch` of `registryExpander`: the text before the match (`prefix()`), the two
captures `match[1]` and `match[2]`, and the text after the match (`suffix()`). -/
structure wsmatch where
  pfx : wstring
  sub1 : wstring
  sub2 : wstring
  sfx : wstring
deriving DecidableEq, Repr

namespace registryExpander

/-- A match of the pattern `<(HK[A-Z][A-Z])\\([^>]*)>` that begins at the first character of
`str`: the two captures and the text after the match.  The second capture runs to the first
`>` that follows, and there is no match when none follows. -/
def matchAt (str : wstring) : Option (wstring × wstring × wstring) :=
  match str with
  | c0 :: c1 :: c2 :: c3 :: c4 :: c5 :: tail =>
    if c0 = '<' ∧ c1 = 'H' ∧ c2 = 'K' ∧ isUpperAZ c3 = true ∧ isUpperAZ c4 = true
        ∧ c5 = '\\' then
      match tail.dropWhile (fun c => c != '>') with
      | _ :: rest => some ([c1, c2, c3, c4], tail.takeWhile (fun c => c != '>'), rest)
      | [] => none
    else none
  | _ => none

/-- The search a `wsregex_iterator` makes in `str`: the leftmost match.  On increment the
iterator searches the text after the last match, and the `prefix()` of what it finds starts
at the end of that match. -/
def search : wstring → Option wsmatch
  | [] => none
  | c :: cs =>
    match matchAt (c :: cs) with
    | some (sub1, sub2, rest) => some ⟨[], sub1, sub2, rest⟩
    | none =>
      match search cs with
      | some m => some { m with pfx := c :: m.pfx }
      | none => none

end registryExpander

/-- The `while (next != end)` loop of `expandWindowsRegistryStrings`, entered with `*next`,
`result` and `regValue`, followed by the final `result += match.suffix().str()`. -/
def expandLoop (RegGetValue : HKEY → wstring → wstring → Option wstring)
    (next : wsmatch) (result regValue : wstring) : wstring :=
  let result := result ++ next.pfx
  let found := getWindowsRegistryValue RegGetValue next.sub1 next.sub2 regValue
  let result := if found.1 = true then result ++ found.2 else result
  match _h : registryExpander.search next.sfx with
  | some following => expandLoop RegGetValue following result found.2
  | none => result ++ next.sfx
termination_by next.sfx.length
decreasing_by
  have drop_le : ∀ (l : wstring), (l.dropWhile (fun c => c != '>')).length ≤ l.length := by
    intro l
    induction l with
    | nil => simp
    | cons x xs ih =>
      simp only [List.dropWhile_cons]
      split
      · simp only [List.length_cons]; omega
      · simp
  have at_lt : ∀ (s : wstring) (a b r : wstring),
      registryExpander.matchAt s = some (a, b, r) → r.length < s.length := by
    intro s a b r hm
    unfold registryExpander.matchAt at hm
    split at hm
    · rename_i c0 c1 c2 c3 c4 c5 tail
      split at hm
      · have hd := drop_le tail
        split at hm
        · rename_i x rest heq
          rw [heq] at hd
          simp only [Option.some.injEq, Prod.mk.injEq] at hm
          rw [← hm.2.2]
          simp only [List.length_cons] at hd ⊢
          omega
        · exact absurd hm (by simp)
      · exact absurd hm (by simp)
    · exact absurd hm (by simp)
  have search_lt : ∀ (s : wstring) (m : wsmatch),
      registryExpander.search s = some m → m.sfx.length < s.length := by
    intro s
    induction s with
    | nil => intro m hm; simp [registryExpander.search] at hm
    | cons c cs ih =>
      intro m hm
      unfold registryExpander.search at hm
      split at hm
      · rename_i a b r heq
        simp only [Option.some.injEq] at hm
        rw [← hm]
        exact at_lt _ _ _ _ heq
      · split at hm
        · rename_i m0 heq
          simp only [Option.some.injEq] at hm
          rw [← hm]
          have := ih m0 heq
          simp only [List.length_cons]
          omega
        · exact absurd hm (by simp)
  exact search_lt _ _ (by assumption)

/-- `expandWindowsRegistryStrings`. -/
def expandWindowsRegistryStrings (RegGetValue : HKEY → wstring → wstring → Option wstring)
    (str : wstring) : wstring :=
  match registryExpander.search str with
  | none => str
  | some next => expandLoop RegGetValue next [] []

/-! ### Inputs described by their tokens -/

/-- The text of the token `<hive\\location>`. -/
def tokenText (hive location : wstring) : wstring :=
  '<' :: (hive ++ '\\' :: (location ++ ['>']))

/-- Whether `hive` is `HK` followed by two upper-case letters. -/
def isHiveName : wstring → Bool
  | [c1, c2, c3, c4] => c1 == 'H' && c2 == 'K' && isUpperAZ c3 && isUpperAZ c4
  | _ => false

/-- One step of an input `p0 ++ t1 ++ p1 ++ ... ++ tn ++ pn`: the text `p` before a token and
the hive and path of the token. -/
structure Segment where
  text : wstring
  hive : wstring
  location : wstring
deriving DecidableEq, Repr

/-- Whether the token of a segment has the form `<HKxx\\path>`, `xx` two upper-case letters and
`path` without `>`. -/
def Segment.wellFormed (s : Segment) : Bool :=
  isHiveName s.hive && decide ('>' ∉ s.location)

/-- The input `p0 ++ t1 ++ p1 ++ ... ++ tn ++ pn` made of the segments and the last text. -/
def assemble : List Segment → wstring → wstring
  | [], last => last
  | s :: segs, last => s.text ++ tokenText s.hive s.location ++ assemble segs last

/-- Whether no match of the pattern begins at a character of `text` when `rest` follows. -/
def noTokenStartsIn : wstring → wstring → Bool
  | [], _ => true
  | c :: cs, rest =>
    (registryExpander.matchAt (c :: cs ++ rest)).isNone && noTokenStartsIn cs rest

/-- Whether the tokens of `assemble segs last` are the tokens of `segs`, one after the other:
each has the token form, and no match of the pattern begins inside a text between them or in
the last text. -/
def tokensAre : List Segment → wstring → Bool
  | [], last => noTokenStartsIn last []
  | s :: segs, last =>
    s.wellFormed
      && noTokenStartsIn s.text (tokenText s.hive s.location ++ assemble segs last)
      && tokensAre segs last

/-- The text by which `expandWindowsRegistryStrings` replaces the token `<hive\\location>`:
the registry value when the lookup succeeds and the empty text otherwise. -/
def replacement (RegGetValue : HKEY → wstring → wstring → Option wstring)
    (hive location : wstring) : wstring :=
  if (getWindowsRegistryValue RegGetValue hive location []).1 = true
  then (getWindowsRegistryValue RegGetValue hive location []).2 else []

/-- The output `p0 ++ r1 ++ p1 ++ ... ++ rn ++ pn` in which each token is replaced. -/
def substituted (RegGetValue : HKEY → wstring → wstring → Option wstring) :
    List Segment → wstring → wstring
  | [], last => last
  | s :: segs, last =>
    s.text ++ replacement RegGetValue s.hive s.location ++ substituted RegGetValue segs last

/-- Whether `str` contains a token of the form `<HKxx\path>`, `xx` two upper-case letters and
`path` without `>`. -/
def containsToken (str : wstring) : Prop :=
  ∃ pre hive location post : wstring,
    isHiveName hive = true ∧ '>' ∉ location ∧ str = pre ++ tokenText hive location ++ post

/-- The output `p0 ++ v1 ++ p1 ++ ... ++ vn ++ pn` for segments given with the values
`v1 .. vn` of their tokens. -/
def resolvedText : List (Segment × wstring) → wstring → wstring
  | [], last => last
  | sv :: segs, last => sv.1.text ++ sv.2 ++ resolvedText segs last

/-- The output for segments given with the outcome of the lookup of their tokens: the value
found, or nothing where the token is not resolved. -/
def outcomeText : List (Segment × Option wstring) → wstring → wstring
  | [], last => last
  | so :: segs, last => so.1.text ++ so.2.getD [] ++ outcomeText segs last

/-- A registry for the examples: under `HKEY_LOCAL_MACHINE` the value `v` of the key `S` is
`V`, under `HKEY_CLASSES_ROOT` the value `k` of the key `k` is `W`, and every other lookup
fails. -/
def exampleRegistry : HKEY → wstring → wstring → Option wstring
  | .HKEY_LOCAL_MACHINE, subKey, value =>
    if subKey = ['S'] ∧ value = ['v'] then some ['V'] else none
  | .HKEY_CLASSES_ROOT, subKey, value =>
    if subKey = ['k'] ∧ value = ['k'] then some ['W'] else none
  | .HKEY_CURRENT_USER, _, _ => none

/-! ## Theorems -/

/-- C1: `bounds()` of a range whose host readings are `Row`, `Column`, `Rows.Count`,
`Columns.Count` is `(Row-1, Column-1, Row-1+Rows.Count-1, Column-1+Columns.Count-1)`, and the
readings 1, 1, 1, 3 give `(0, 0, 0, 2)`. -/
theorem bounds_eq_host_readings :
    (∀ Row Column RowsCount ColumnsCount : Int,
      ExcelRange.bounds ⟨Row, Column, RowsCount, ColumnsCount⟩
        = (Row - 1, Column - 1, Row - 1 + RowsCount - 1, Column - 1 + ColumnsCount - 1))
    ∧ ExcelRange.bounds ⟨1, 1, 1, 3⟩ = (0, 0, 0, 2) := by
  refine ⟨fun _ _ _ _ => rfl, by decide⟩

/-! ### Sub-ranges -/

/-- Unfolding of `bounds` after `range` when no sentinel is involved. -/
theorem bounds_range_of_not_sentinel (TO_END : Int) (R : ComRange)
    (fromRow fromCol toRow toCol : Int) (hr : fromRow ≤ toRow) (hc : fromCol ≤ toCol)
    (hsr : toRow ≠ TO_END) (hsc : toCol ≠ TO_END) :
    ExcelRange.bounds (ExcelRange.range TO_END R fromRow fromCol toRow toCol)
      = (R.Row - 1 + fromRow, R.Column - 1 + fromCol, R.Row - 1 + toRow, R.Column - 1 + toCol) := by
  simp only [ExcelRange.bounds, ExcelRange.range, ExcelRange.rangeCellIndices,
    ExcelRange.resolveToEnd, Worksheet.GetRange, ComRange.CellsItem, if_neg hsr, if_neg hsc,
    Prod.mk.injEq]
  refine ⟨?_, ?_, ?_, ?_⟩ <;> omega

/-- C2 (what the code does): on a range whose top-left cell is on the grid (`Row`, `Column`
at least 1) and which has at least one row and one column, `range(0, 0, TO_END, TO_END)` ends
`Row + 1` rows below and `Column + 1` columns right of the last cell of the parent, so its
bounds are never those of the parent. -/
theorem range_to_end_overshoots (TO_END : Int) (R : ComRange)
    (hRow : 1 ≤ R.Row) (hCol : 1 ≤ R.Column) (hRows : 1 ≤ R.RowsCount)
    (hCols : 1 ≤ R.ColumnsCount) :
    ExcelRange.bounds (ExcelRange.range TO_END R 0 0 TO_END TO_END)
        = ((ExcelRange.bounds R).1, (ExcelRange.bounds R).2.1,
            (ExcelRange.bounds R).2.2.1 + (R.Row + 1),
            (ExcelRange.bounds R).2.2.2 + (R.Column + 1))
    ∧ ExcelRange.bounds (ExcelRange.range TO_END R 0 0 TO_END TO_END) ≠ ExcelRange.bounds R := by
  have key : ExcelRange.bounds (ExcelRange.range TO_END R 0 0 TO_END TO_END)
        = ((ExcelRange.bounds R).1, (ExcelRange.bounds R).2.1,
            (ExcelRange.bounds R).2.2.1 + (R.Row + 1),
            (ExcelRange.bounds R).2.2.2 + (R.Column + 1)) := by
    simp only [ExcelRange.bounds, ExcelRange.range, ExcelRange.rangeCellIndices,
      ExcelRange.resolveToEnd, Worksheet.GetRange, ComRange.CellsItem, if_true,
      Prod.mk.injEq]
    refine ⟨?_, ?_, ?_, ?_⟩ <;> omega
  refine ⟨key, ?_⟩
  rw [key]
  intro h
  have h3 := congrArg (fun t => t.2.2.1) h
  simp only [ExcelRange.bounds] at h3
  omega

/-- C2 at `A1:C1` (host readings 1, 1, 1, 3, sentinel -1): the parent's bounds are
`(0, 0, 0, 2)` and those of `range(0, 0, TO_END, TO_END)` are `(0, 0, 2, 4)`. -/
theorem range_to_end_overshoots_witness :
    ExcelRange.bounds ⟨1, 1, 1, 3⟩ = (0, 0, 0, 2)
    ∧ ExcelRange.bounds (ExcelRange.range (-1) ⟨1, 1, 1, 3⟩ 0 0 (-1) (-1)) = (0, 0, 2, 4)
    ∧ ExcelRange.bounds (ExcelRange.range (-1) ⟨1, 1, 1, 3⟩ 0 0 (-1) (-1))
        ≠ ExcelRange.bounds ⟨1, 1, 1, 3⟩ :=
  ⟨by decide, by decide,
    (range_to_end_overshoots (-1) ⟨1, 1, 1, 3⟩ (by decide) (by decide) (by decide)
      (by decide)).2⟩

/-- C3: for zero-based `fromRow <= toRow`, `fromCol <= toCol`, all non-negative and none the
sentinel, `range` indexes the parent's cells at `(fromRow+1, fromCol+1)` and
`(toRow+1, toCol+1)`, the bounds of the result are those of the parent's top-left corner
`(r0, c0)` moved by the arguments, and the cell read by `value(i, j)` has bounds
`(r0+i, c0+j, r0+i, c0+j)`: the `-1` of `bounds` undoes the `+1` of `range` and `value`. -/
theorem range_bounds_offset (TO_END : Int) (R : ComRange) (fromRow fromCol toRow toCol : Int)
    (_hfr : 0 ≤ fromRow) (_hfc : 0 ≤ fromCol) (hr : fromRow ≤ toRow) (hc : fromCol ≤ toCol)
    (hsr : toRow ≠ TO_END) (hsc : toCol ≠ TO_END) :
    ExcelRange.rangeCellIndices TO_END R fromRow fromCol toRow toCol
        = ((fromRow + 1, fromCol + 1), (toRow + 1, toCol + 1))
    ∧ ExcelRange.bounds (ExcelRange.range TO_END R fromRow fromCol toRow toCol)
        = ((ExcelRange.bounds R).1 + fromRow, (ExcelRange.bounds R).2.1 + fromCol,
            (ExcelRange.bounds R).1 + toRow, (ExcelRange.bounds R).2.1 + toCol)
    ∧ ∀ i j : Int, ExcelRange.bounds (ExcelRange.valueCell R i j)
        = ((ExcelRange.bounds R).1 + i, (ExcelRange.bounds R).2.1 + j,
            (ExcelRange.bounds R).1 + i, (ExcelRange.bounds R).2.1 + j) := by
  refine ⟨?_, ?_, ?_⟩
  · simp [ExcelRange.rangeCellIndices, ExcelRange.resolveToEnd, hsr, hsc]
  · rw [bounds_range_of_not_sentinel TO_END R fromRow fromCol toRow toCol hr hc hsr hsc]
    rfl
  · intro i j
    simp only [ExcelRange.bounds, ExcelRange.valueCell, ComRange.CellsItem, Prod.mk.injEq]
    refine ⟨?_, ?_, ?_, ?_⟩ <;> omega

/-- C3 at the range with host readings 2, 3, 5, 5 (bounds `(1, 2, 5, 6)`), sub-range
`range(1, 1, 3, 2)`, sentinel -1. -/
theorem range_bounds_offset_witness :
    ExcelRange.bounds (ExcelRange.range (-1) ⟨2, 3, 5, 5⟩ 1 1 3 2) = (2, 3, 4, 4)
    ∧ ExcelRange.rangeCellIndices (-1) ⟨2, 3, 5, 5⟩ 1 1 3 2 = ((1 + 1, 1 + 1), (3 + 1, 2 + 1))
    ∧ ExcelRange.bounds (ExcelRange.range (-1) ⟨2, 3, 5, 5⟩ 1 1 3 2)
        = ((ExcelRange.bounds ⟨2, 3, 5, 5⟩).1 + 1, (ExcelRange.bounds ⟨2, 3, 5, 5⟩).2.1 + 1,
            (ExcelRange.bounds ⟨2, 3, 5, 5⟩).1 + 3, (ExcelRange.bounds ⟨2, 3, 5, 5⟩).2.1 + 2)
    ∧ ∀ i j : Int, ExcelRange.bounds (ExcelRange.valueCell ⟨2, 3, 5, 5⟩ i j)
        = ((ExcelRange.bounds ⟨2, 3, 5, 5⟩).1 + i, (ExcelRange.bounds ⟨2, 3, 5, 5⟩).2.1 + j,
            (ExcelRange.bounds ⟨2, 3, 5, 5⟩).1 + i, (ExcelRange.bounds ⟨2, 3, 5, 5⟩).2.1 + j) :=
  ⟨by decide,
    range_bounds_offset (-1) ⟨2, 3, 5, 5⟩ 1 1 3 2 (by decide) (by decide) (by decide)
      (by decide) (by decide) (by decide)⟩

/-! ### Trimming -/

/-- C4: `trim()` returns the range itself when it is a single cell (`size() == 1`) or when
`trimmedVariantArrayBounds` reports failure, whatever the host says the cells hold. -/
theorem trim_unchanged (TO_END : Int) (trimmedVariantArrayBounds : VARIANT → Option (Nat × Nat))
    (Value2 : ComRange → VARIANT) (R : ComRange)
    (h : ExcelRange.size R = 1 ∨ trimmedVariantArrayBounds (Value2 R) = none) :
    ExcelRange.trim TO_END trimmedVariantArrayBounds Value2 R = R := by
  unfold ExcelRange.trim
  by_cases hsize : ExcelRange.size R = 1
  · rw [if_pos hsize]
  · rw [if_neg hsize]
    rcases h with h | h
    · exact absurd h hsize
    · rw [h]

/-- C4 at two inputs: the single cell `B2` holding a number, with a helper that would report
bounds, and the block `A1:B3` whose value the helper cannot measure. -/
theorem trim_unchanged_witness :
    ExcelRange.trim (-1) (fun _ => some (1, 1)) (fun _ => VARIANT.VT_R8 ⟨0⟩) ⟨2, 2, 1, 1⟩
        = ⟨2, 2, 1, 1⟩
    ∧ ExcelRange.trim (-1) (fun _ => none) (fun _ => VARIANT.VT_NULL) ⟨1, 1, 3, 2⟩
        = ⟨1, 1, 3, 2⟩ :=
  ⟨trim_unchanged (-1) (fun _ => some (1, 1)) (fun _ => VARIANT.VT_R8 ⟨0⟩) ⟨2, 2, 1, 1⟩
      (Or.inl (by decide)),
    trim_unchanged (-1) (fun _ => none) (fun _ => VARIANT.VT_NULL) ⟨1, 1, 3, 2⟩
      (Or.inr rfl)⟩

/-- C5 as stated fails: on the empty block `A1:J10`, for which the helper reports no rows and
no columns, `trim()` is `range(0, 0, 0, 0)`, the top-left cell, and for no value of the
sentinel is that `range(0, 0, 0-1, 0-1)`. -/
theorem trim_zero_count_counterexample :
    ¬ ∃ TO_END : Int,
      ExcelRange.trim TO_END (fun _ => some (0, 0))
          (fun _ => VARIANT.VT_ARRAY (List.replicate 10 (List.replicate 10 VARIANT.VT_EMPTY)))
          ⟨1, 1, 10, 10⟩
        = ExcelRange.range TO_END ⟨1, 1, 10, 10⟩ 0 0 (0 - 1) (0 - 1) := by
  rintro ⟨TO_END, h⟩
  have hrows := congrArg ComRange.RowsCount h
  have hcast : castToInt 0 = 0 := by decide
  simp only [ExcelRange.trim, ExcelRange.size, ExcelRange.shape, ExcelRange.range,
    ExcelRange.rangeCellIndices, ExcelRange.resolveToEnd, Worksheet.GetRange,
    ComRange.CellsItem, gt_iff_lt, lt_self_iff_false, if_false, hcast] at hrows
  by_cases h0 : (0 : Int) = TO_END
  · subst h0
    simp at hrows
  · by_cases h1 : (0 : Int) - 1 = TO_END
    · subst h1
      simp at hrows
    · rw [if_neg h1] at hrows
      simp [h0] at hrows

/-- C5 (amended): on a multi-cell range whose trimmed bounds are determined as
`(nRows, nCols)`, both at most `2^31` so that the cast to `int` of a decremented count keeps
its value, `trim()` is `range(0, 0, max (nRows-1) 0, max (nCols-1) 0)`: for counts of at least
one that is `range(0, 0, nRows-1, nCols-1)`, whose bounds, when neither index is the sentinel,
are `(r0, c0, r0+nRows-1, c0+nCols-1)`. -/
theorem trim_eq_range (TO_END : Int) (trimmedVariantArrayBounds : VARIANT → Option (Nat × Nat))
    (Value2 : ComRange → VARIANT) (R : ComRange) (nRows nCols : Nat)
    (hsize : 1 < ExcelRange.size R)
    (hb : trimmedVariantArrayBounds (Value2 R) = some (nRows, nCols))
    (hrows : nRows ≤ 2 ^ 31) (hcols : nCols ≤ 2 ^ 31) :
    ExcelRange.trim TO_END trimmedVariantArrayBounds Value2 R
        = ExcelRange.range TO_END R 0 0 (max ((nRows : Int) - 1) 0) (max ((nCols : Int) - 1) 0)
    ∧ (1 ≤ nRows → 1 ≤ nCols →
        ExcelRange.trim TO_END trimmedVariantArrayBounds Value2 R
          = ExcelRange.range TO_END R 0 0 ((nRows : Int) - 1) ((nCols : Int) - 1)
        ∧ ((nRows : Int) - 1 ≠ TO_END → (nCols : Int) - 1 ≠ TO_END →
            ExcelRange.bounds (ExcelRange.trim TO_END trimmedVariantArrayBounds Value2 R)
              = ((ExcelRange.bounds R).1, (ExcelRange.bounds R).2.1,
                  (ExcelRange.bounds R).1 + ((nRows : Int) - 1),
                  (ExcelRange.bounds R).2.1 + ((nCols : Int) - 1)))) := by
  have hne : ¬ ExcelRange.size R = 1 := by omega
  have hcast : ∀ n : Nat, n ≤ 2 ^ 31 →
      castToInt (if n > 0 then n - 1 else n) = max ((n : Int) - 1) 0 := by
    intro n hn
    have h31 : (2 : Nat) ^ 31 = 2147483648 := by norm_num
    have h32 : (2 : Nat) ^ 32 = 4294967296 := by norm_num
    have h32i : (2 : Int) ^ 32 = 4294967296 := by norm_num
    rw [h31] at hn
    unfold castToInt
    rw [h31, h32, h32i]
    split <;> split <;> omega
  have hr := hcast nRows hrows
  have hc := hcast nCols hcols
  have key : ExcelRange.trim TO_END trimmedVariantArrayBounds Value2 R
      = ExcelRange.range TO_END R 0 0 (max ((nRows : Int) - 1) 0) (max ((nCols : Int) - 1) 0) := by
    unfold ExcelRange.trim
    rw [if_neg hne, hb]
    simp only [hr, hc]
  refine ⟨key, fun h1 h2 => ?_⟩
  have mr : max ((nRows : Int) - 1) 0 = (nRows : Int) - 1 := by omega
  have mc : max ((nCols : Int) - 1) 0 = (nCols : Int) - 1 := by omega
  rw [key, mr, mc]
  refine ⟨rfl, fun hsr hsc => ?_⟩
  rw [bounds_range_of_not_sentinel TO_END R 0 0 _ _ (by omega) (by omega) hsr hsc]
  simp only [ExcelRange.bounds, add_zero]

/-- C5 (amended) at the block `A1:J10` whose content fills rows 0 to 2 and columns 0 to 1
(`nRows = 3`, `nCols = 2`), sentinel -1: `trim()` is `range(0, 0, 2, 1)`, with bounds
`(0, 0, 2, 1)`. -/
theorem trim_eq_range_witness :
    ExcelRange.bounds (ExcelRange.trim (-1) (fun _ => some (3, 2)) (fun _ => blockWithContent3x2)
        ⟨1, 1, 10, 10⟩) = (0, 0, 2, 1)
    ∧ ExcelRange.trim (-1) (fun _ => some (3, 2)) (fun _ => blockWithContent3x2) ⟨1, 1, 10, 10⟩
        = ExcelRange.range (-1) ⟨1, 1, 10, 10⟩ 0 0 2 1 :=
  ⟨by decide,
    ((trim_eq_range (-1) (fun _ => some (3, 2)) (fun _ => blockWithContent3x2) ⟨1, 1, 10, 10⟩
      3 2 (by decide) rfl (by norm_num) (by norm_num)).2 (by decide) (by decide)).1⟩

/-! ### Formulas -/

/-- C6 (what the code does): the text overload of `setFormula` never consults the
dynamic-array capability flag; its path is the specified one for a host that supports dynamic
arrays, and the value written is the text as a string variant.  On a host without that
support, mode `DYNAMIC_ARRAY` on the single cell `A1` is written through `Formula2`, where
the specified path is `Formula`. -/
theorem setFormula_text_ignores_capability :
    (∀ (self : ComRange) (formula : String) (mode : SetFormulaMode),
      (ExcelRange.setFormula self formula mode).path
          = specifiedWritePath mode (ExcelRange.size self) true
        ∧ (ExcelRange.setFormula self formula mode).value = VARIANT.VT_BSTR formula)
    ∧ (ExcelRange.setFormula ⟨1, 1, 1, 1⟩ "=B1+1" .DYNAMIC_ARRAY).path = WritePath.Formula2
    ∧ specifiedWritePath .DYNAMIC_ARRAY (ExcelRange.size ⟨1, 1, 1, 1⟩) false
        = WritePath.Formula := by
  refine ⟨fun self formula mode => ?_, by decide, by decide⟩
  unfold ExcelRange.setFormula specifiedWritePath
  by_cases h1 : mode = SetFormulaMode.ARRAY_FORMULA ∧ ExcelRange.size self > 1
  · simp only [if_pos h1, FormulaWrite.path, FormulaWrite.value, stringToVariant, and_self]
  · by_cases h2 : mode = SetFormulaMode.OLD_ARRAY
    · simp [if_neg h1, h2, FormulaWrite.path, FormulaWrite.value, stringToVariant]
    · simp [if_neg h1, h2, FormulaWrite.path, FormulaWrite.value, stringToVariant]

/-- C7 (what the code does): the tagged-value overload of `setFormula` tests the type tag of
`v` after `v` has been moved into `value`, when the tag is `VT_EMPTY`; so it never writes
through `FormulaArray`: it writes the marshalled value through `Formula` if the mode is
`OLD_ARRAY` or the host lacks dynamic-array support, and through `Formula2` otherwise.  A text
written with mode `ARRAY_FORMULA` to the three cells `A1:C1` goes through `Formula2` on a host
with dynamic arrays and through `Formula` on one without, where the specified path is
`FormulaArray`. -/
theorem setFormula_value_never_formulaArray :
    (∀ (toVariant : ExcelObj → VARIANT) (dynamicArrays : Bool) (self : ComRange)
        (formula : ExcelObj) (mode : SetFormulaMode),
      (ExcelRange.setFormulaObj toVariant dynamicArrays self formula mode).path
          = (if mode = .OLD_ARRAY ∨ dynamicArrays = false then WritePath.Formula
              else WritePath.Formula2)
        ∧ (ExcelRange.setFormulaObj toVariant dynamicArrays self formula mode).path
          ≠ WritePath.FormulaArray
        ∧ (ExcelRange.setFormulaObj toVariant dynamicArrays self formula mode).value
          = toVariant formula)
    ∧ (ExcelRange.setFormulaObj excelObjToVariant true ⟨1, 1, 1, 3⟩ (ExcelObj.Str "=D1:F1")
        .ARRAY_FORMULA).path = WritePath.Formula2
    ∧ (ExcelRange.setFormulaObj excelObjToVariant false ⟨1, 1, 1, 3⟩ (ExcelObj.Str "=D1:F1")
        .ARRAY_FORMULA).path = WritePath.Formula
    ∧ specifiedWritePath .ARRAY_FORMULA (ExcelRange.size ⟨1, 1, 1, 3⟩) true
        = WritePath.FormulaArray
    ∧ specifiedWritePath .ARRAY_FORMULA (ExcelRange.size ⟨1, 1, 1, 3⟩) false
        = WritePath.FormulaArray := by
  have general : ∀ (toVariant : ExcelObj → VARIANT) (dynamicArrays : Bool) (self : ComRange)
      (formula : ExcelObj) (mode : SetFormulaMode),
      (ExcelRange.setFormulaObj toVariant dynamicArrays self formula mode).path
          = (if mode = .OLD_ARRAY ∨ dynamicArrays = false then WritePath.Formula
              else WritePath.Formula2)
        ∧ (ExcelRange.setFormulaObj toVariant dynamicArrays self formula mode).value
          = toVariant formula := by
    intro toVariant dynamicArrays self formula mode
    have h1 : ¬ (mode = SetFormulaMode.ARRAY_FORMULA
        ∧ VARIANT.VT_EMPTY.isBSTR = true ∧ ExcelRange.size self > 1) := by
      intro h
      exact absurd h.2.1 (by simp [VARIANT.isBSTR])
    unfold ExcelRange.setFormulaObj
    by_cases h2 : mode = SetFormulaMode.OLD_ARRAY ∨ dynamicArrays = false
    · simp only [attachVariant, if_neg h1, if_pos h2, FormulaWrite.path, FormulaWrite.value,
        and_self]
    · simp only [attachVariant, if_neg h1, if_neg h2, FormulaWrite.path, FormulaWrite.value,
        and_self]
  refine ⟨fun toVariant dynamicArrays self formula mode => ?_, ?_, ?_, by decide, by decide⟩
  · obtain ⟨hp, hv⟩ := general toVariant dynamicArrays self formula mode
    refine ⟨hp, ?_, hv⟩
    rw [hp]
    split <;> simp
  · rw [(general _ _ _ _ _).1]
    simp
  · rw [(general _ _ _ _ _).1]
    simp

/-! ### Special cells -/

/-- C8: when the host's `SpecialCells` fails with the `_com_error` `error`, and the busy code
`VBA_E_IGNORE` is not the code `0x800A03EC`, then `specialCells` ends in exactly one of three
ways: `ComBusyException` exactly when the code is `VBA_E_IGNORE`; the empty range, a
successful result, exactly when the code is `0x800A03EC`; and otherwise the generic exception
that carries the code and the message. -/
theorem specialCells_failure_outcome (VBA_E_IGNORE Constants Formulas : Int)
    (SpecialCells : Int → VARIANT → Except ComError ComRange) (type : Int) (values : Nat)
    (error : ComError)
    (hcodes : toUnsigned VBA_E_IGNORE ≠ 0x800A03EC)
    (hfail : SpecialCells (ExcelRange.specialCellsArgs Constants Formulas type values).1
        (ExcelRange.specialCellsArgs Constants Formulas type values).2 = .error error) :
    (ExcelRange.specialCells VBA_E_IGNORE Constants Formulas SpecialCells type values
          = .error .ComBusyException
        ↔ toUnsigned error.Error = toUnsigned VBA_E_IGNORE)
    ∧ (ExcelRange.specialCells VBA_E_IGNORE Constants Formulas SpecialCells type values
          = .ok ⟨none⟩
        ↔ toUnsigned error.Error = 0x800A03EC)
    ∧ (ExcelRange.specialCells VBA_E_IGNORE Constants Formulas SpecialCells type values
          = .error (.Exception (toUnsigned error.Error) error.ErrorMessage)
        ↔ toUnsigned error.Error ≠ toUnsigned VBA_E_IGNORE
          ∧ toUnsigned error.Error ≠ 0x800A03EC) := by
  have hs : ExcelRange.specialCells VBA_E_IGNORE Constants Formulas SpecialCells type values
      = ExcelRange.specialCellsCatch VBA_E_IGNORE error := by
    simp only [ExcelRange.specialCells, hfail]
  rw [hs]
  unfold ExcelRange.specialCellsCatch
  by_cases h1 : toUnsigned error.Error = toUnsigned VBA_E_IGNORE
  · have h2 : toUnsigned error.Error ≠ 0x800A03EC := fun h => hcodes (h1 ▸ h)
    simp [h1, h1 ▸ h2]
  · by_cases h2 : toUnsigned error.Error = 0x800A03EC
    · have h3 : ¬ (2148140012 : Nat) = toUnsigned VBA_E_IGNORE := fun h => hcodes h.symm
      rw [if_neg h1, if_pos h2]
      simp [h2, h3]
    · simp [h1, h2]

/-- C8 at a host that finds no cell: `SpecialCells` fails with `0x800A03EC` (as an `HRESULT`,
-2146827284) and `specialCells(Constants, Text)` is the empty range; the busy code taken is
`0x800AC472`. -/
theorem specialCells_failure_outcome_witness :
    ExcelRange.specialCells (-2146777998) 2 (-4123)
        (fun _ _ => .error ⟨-2146827284, "No cells were found."⟩) 2 2
      = .ok ⟨none⟩ :=
  (specialCells_failure_outcome (-2146777998) 2 (-4123)
    (fun _ _ => .error ⟨-2146827284, "No cells were found."⟩) 2 2
    ⟨-2146827284, "No cells were found."⟩ (by decide) rfl).2.1.mpr (by decide)

/-- C9: `specialCells(kind, mask)` is what the host's `SpecialCells` answers when it is
called with the kind's integer value as the cell type and, as the value kind, the mask's
integer value when the kind is `Constants` or `Formulas` and the mask is not zero, the missing
argument in every other case: the range the host returns, or on a `_com_error` the outcome of
the `catch` block.  So for every host the call made is exactly that one. -/
theorem specialCells_arguments (VBA_E_IGNORE Constants Formulas type : Int) (values : Nat)
    (SpecialCells : Int → VARIANT → Except ComError ComRange) :
    ExcelRange.specialCells VBA_E_IGNORE Constants Formulas SpecialCells type values
        = (match SpecialCells type
              (if (type = Constants ∨ type = Formulas) ∧ values ≠ 0
                then VARIANT.VT_UINT values else vtMissing) with
            | .ok r => .ok ⟨some r⟩
            | .error error => ExcelRange.specialCellsCatch VBA_E_IGNORE error)
    ∧ ExcelRange.specialCellsArgs Constants Formulas type values
        = (type, if (type = Constants ∨ type = Formulas) ∧ values ≠ 0
                  then VARIANT.VT_UINT values else vtMissing) := by
  have hargs : ExcelRange.specialCellsArgs Constants Formulas type values
      = (type, if (type = Constants ∨ type = Formulas) ∧ values ≠ 0
                then VARIANT.VT_UINT values else vtMissing) := by
    unfold ExcelRange.specialCellsArgs
    by_cases h : (type = Constants ∨ type = Formulas) ∧ values ≠ 0
    · simp only [if_pos h, if_pos (And.intro h.2 h.1)]
    · have h2 : ¬ (values ≠ 0 ∧ (type = Constants ∨ type = Formulas)) := fun k => h ⟨k.2, k.1⟩
      simp only [if_neg h, if_neg h2]
  refine ⟨?_, hargs⟩
  simp only [ExcelRange.specialCells, hargs]

/-- C9 at hosts that answer with the arguments they are given: asked for the constants that
are text (`Constants = 2`, mask 2), the host is called with cell type 2 and the mask 2 as
value kind; asked for the blanks (cell type 4) with the same mask, it is called with cell
type 4 and the missing argument. -/
theorem specialCells_arguments_witness :
    ExcelRange.specialCells (-2146777998) 2 (-4123)
        (fun cellType value => if cellType = 2 ∧ value.isUINT 2 = true
          then .ok ⟨1, 1, 1, 1⟩ else .error ⟨-2147352571, "Type mismatch."⟩) 2 2
      = .ok ⟨some ⟨1, 1, 1, 1⟩⟩
    ∧ ExcelRange.specialCells (-2146777998) 2 (-4123)
        (fun cellType value => if cellType = 4 ∧ value.isMissing = true
          then .ok ⟨1, 1, 1, 1⟩ else .error ⟨-2147352571, "Type mismatch."⟩) 4 2
      = .ok ⟨some ⟨1, 1, 1, 1⟩⟩ := by
  constructor
  · rw [(specialCells_arguments (-2146777998) 2 (-4123) 2 2 _).1]
    simp [VARIANT.isUINT]
  · rw [(specialCells_arguments (-2146777998) 2 (-4123) 4 2 _).1]
    simp [VARIANT.isMissing, vtMissing]

/-- C10: `hasFormula()` holds the boolean `b` exactly when the host's answer is the boolean
variant holding `b`, and is empty exactly when the answer is not a boolean variant; so it is
never `false` for an answer that is not a boolean. -/
theorem hasFormula_present_iff_bool (result : VARIANT) :
    (∀ b : Bool, ExcelRange.hasFormula result = some b ↔ result = VARIANT.VT_BOOL b)
    ∧ (ExcelRange.hasFormula result = none ↔ ∀ b : Bool, result ≠ VARIANT.VT_BOOL b)
    ∧ ((∀ b : Bool, result ≠ VARIANT.VT_BOOL b) → ExcelRange.hasFormula result ≠ some false) := by
  cases result <;> simp [ExcelRange.hasFormula]

/-- C10 at the answers the host gives: `true`, `false`, and the `VT_NULL` it gives for a range
of which only some cells hold a formula. -/
theorem hasFormula_present_iff_bool_witness :
    ExcelRange.hasFormula (VARIANT.VT_BOOL true) = some true
    ∧ ExcelRange.hasFormula (VARIANT.VT_BOOL false) = some false
    ∧ ExcelRange.hasFormula VARIANT.VT_NULL = none
    ∧ ExcelRange.hasFormula VARIANT.VT_NULL ≠ some false :=
  ⟨rfl, rfl, rfl,
    (hasFormula_present_iff_bool VARIANT.VT_NULL).2.2 (fun _ h => VARIANT.noConfusion h)⟩

/-! ### Reading a formula -/

/-- C11: `formula()` converts what the host answers for `Formula2` when the dynamic-array
capability flag is set and what it answers for `Formula` when it is not, whatever the host
holds; in particular after any `setFormula`, of either overload and of any mode, however the
host acts on the write. -/
theorem formula_reads_by_capability (variantToExcelObj : VARIANT → ExcelObj) :
    (∀ com : FormulaProperties,
      ExcelRange.formula variantToExcelObj true com = variantToExcelObj com.Formula2
      ∧ ExcelRange.formula variantToExcelObj false com = variantToExcelObj com.Formula)
    ∧ (∀ (host : FormulaWrite → FormulaProperties → FormulaProperties)
        (before : FormulaProperties) (self : ComRange) (text : String) (mode : SetFormulaMode)
        (dynamicArrays : Bool),
        ExcelRange.formula variantToExcelObj dynamicArrays
            (host (ExcelRange.setFormula self text mode) before)
          = variantToExcelObj
              (if dynamicArrays then (host (ExcelRange.setFormula self text mode) before).Formula2
                else (host (ExcelRange.setFormula self text mode) before).Formula))
    ∧ (∀ (host : FormulaWrite → FormulaProperties → FormulaProperties)
        (before : FormulaProperties) (toVariant : ExcelObj → VARIANT) (self : ComRange)
        (value : ExcelObj) (mode : SetFormulaMode) (dynamicArrays : Bool),
        ExcelRange.formula variantToExcelObj dynamicArrays
            (host (ExcelRange.setFormulaObj toVariant dynamicArrays self value mode) before)
          = variantToExcelObj
              (if dynamicArrays
                then (host (ExcelRange.setFormulaObj toVariant dynamicArrays self value mode)
                  before).Formula2
                else (host (ExcelRange.setFormulaObj toVariant dynamicArrays self value mode)
                  before).Formula)) :=
  ⟨fun _ => ⟨rfl, rfl⟩, fun _ _ _ _ _ _ => rfl, fun _ _ _ _ _ _ _ => rfl⟩

/-! ### Log levels -/

/-- C13: for a Python `int` level `L >= 0`, `toSpdLogLevel` is `min (L div 10) 6`, which lies
in `0..6`; and for an spdlog level `s` in `0..6`, the level `10 * s` that `getLogLevel` reports
is translated back to `s`. -/
theorem toSpdLogLevel_factor_ten (from_str : String → Nat) (L : Int) (s : Nat)
    (hL : 0 ≤ L) (hs : s ≤ 6) :
    ((LogWriter.toSpdLogLevel from_str (.long L) : Nat) : Int) = min (L / 10) 6
    ∧ LogWriter.toSpdLogLevel from_str (.long L) ≤ 6
    ∧ LogWriter.getLogLevel s = 10 * s
    ∧ LogWriter.toSpdLogLevel from_str (.long (LogWriter.getLogLevel s)) = s := by
  refine ⟨?_, ?_, ?_, ?_⟩
  · simp only [LogWriter.toSpdLogLevel, PyLong_AsUnsignedLong]
    split <;> omega
  · simp only [LogWriter.toSpdLogLevel]
    omega
  · simp only [LogWriter.getLogLevel]
    omega
  · simp only [LogWriter.toSpdLogLevel, PyLong_AsUnsignedLong, LogWriter.getLogLevel]
    split <;> omega

/-- C13 at the Python levels: `DEBUG = 10`, `INFO = 20`, `WARNING = 30`, `ERROR = 40` and
`CRITICAL = 50` are translated to 1, 2, 3, 4 and 5, and level 45 with logger level 3 is an
instance of the general statement. -/
theorem toSpdLogLevel_factor_ten_witness :
    (LogWriter.toSpdLogLevel (fun _ => 0) (.long 10) = 1
      ∧ LogWriter.toSpdLogLevel (fun _ => 0) (.long 20) = 2
      ∧ LogWriter.toSpdLogLevel (fun _ => 0) (.long 30) = 3
      ∧ LogWriter.toSpdLogLevel (fun _ => 0) (.long 40) = 4
      ∧ LogWriter.toSpdLogLevel (fun _ => 0) (.long 50) = 5)
    ∧ (((LogWriter.toSpdLogLevel (fun _ => 0) (.long 45) : Nat) : Int) = min (45 / 10) 6
      ∧ LogWriter.toSpdLogLevel (fun _ => 0) (.long 45) ≤ 6
      ∧ LogWriter.getLogLevel 3 = 10 * 3
      ∧ LogWriter.toSpdLogLevel (fun _ => 0) (.long (LogWriter.getLogLevel 3)) = 3) :=
  ⟨by decide, toSpdLogLevel_factor_ten (fun _ => 0) 45 3 (by decide) (by decide)⟩

/-! ### References made from a host range -/

/-- C14: for the same host readings, the bounding box `refFromComRange` gives the reference
is the tuple `bounds()` returns, its extents are those of `shape()`, and when both counts are
at least 1 its last row and column are not before its first. -/
theorem refFromComRange_box_eq_bounds (sheetId : Nat) (range : ComRange)
    (hRows : 1 ≤ range.RowsCount) (hCols : 1 ≤ range.ColumnsCount) :
    (refFromComRange sheetId range).box = ExcelRange.bounds range
    ∧ (refFromComRange sheetId range).toRow ≥ (refFromComRange sheetId range).fromRow
    ∧ (refFromComRange sheetId range).toCol ≥ (refFromComRange sheetId range).fromCol
    ∧ ((refFromComRange sheetId range).toRow - (refFromComRange sheetId range).fromRow + 1,
        (refFromComRange sheetId range).toCol - (refFromComRange sheetId range).fromCol + 1)
      = ExcelRange.shape range := by
  refine ⟨rfl, ?_, ?_, ?_⟩
  · simp only [refFromComRange]
    omega
  · simp only [refFromComRange]
    omega
  · simp only [refFromComRange, ExcelRange.shape, Prod.mk.injEq]
    constructor <;> omega

/-- C14 at `B3:E4` (host readings 3, 2, 2, 4): the box and `bounds()` are both
`(2, 1, 3, 4)`. -/
theorem refFromComRange_box_eq_bounds_witness :
    (refFromComRange 7 ⟨3, 2, 2, 4⟩).box = (2, 1, 3, 4)
    ∧ ExcelRange.bounds ⟨3, 2, 2, 4⟩ = (2, 1, 3, 4)
    ∧ (refFromComRange 7 ⟨3, 2, 2, 4⟩).box = ExcelRange.bounds ⟨3, 2, 2, 4⟩ :=
  ⟨by decide, by decide,
    (refFromComRange_box_eq_bounds 7 ⟨3, 2, 2, 4⟩ (by decide) (by decide)).1⟩

/-! ### Registry strings -/

/-- Scanning a path that holds no `>` stops at the `>` that closes the token. -/
theorem dropWhile_location (location rest : wstring) (h : '>' ∉ location) :
    (location ++ '>' :: rest).dropWhile (fun c => c != '>') = '>' :: rest
    ∧ (location ++ '>' :: rest).takeWhile (fun c => c != '>') = location := by
  induction location with
  | nil => simp
  | cons x xs ih =>
    have hx : x ≠ '>' := fun e => h (e ▸ List.mem_cons_self _ _)
    have hxs : '>' ∉ xs := fun m => h (List.mem_cons_of_mem _ m)
    have ih2 := ih hxs
    simp [hx, ih2.1, ih2.2]

/-- The pattern matches a well-formed token at its first character, with its hive and path
as captures. -/
theorem matchAt_tokenText (hive location rest : wstring)
    (hh : isHiveName hive = true) (hl : '>' ∉ location) :
    registryExpander.matchAt (tokenText hive location ++ rest) = some (hive, location, rest) := by
  match hive, hh with
  | [c1, c2, c3, c4], hh =>
    simp only [isHiveName, Bool.and_eq_true, beq_iff_eq] at hh
    obtain ⟨⟨⟨h1, h2⟩, h3⟩, h4⟩ := hh
    have hd := dropWhile_location location rest hl
    subst h1 h2
    simp only [tokenText, List.cons_append, List.nil_append, List.append_assoc,
      registryExpander.matchAt, h3, h4, and_self, if_true, hd.1, hd.2]

/-- A scan passes over a text in which no match begins. -/
theorem search_append (text rest : wstring) (h : noTokenStartsIn text rest = true) :
    registryExpander.search (text ++ rest)
      = (registryExpander.search rest).map (fun m => { m with pfx := text ++ m.pfx }) := by
  induction text with
  | nil => cases hs : registryExpander.search rest <;> simp [hs]
  | cons c cs ih =>
    simp only [noTokenStartsIn, Bool.and_eq_true, Option.isNone_iff_eq_none] at h
    have ih2 := ih h.2
    have hm : registryExpander.matchAt (c :: (cs ++ rest)) = none := h.1
    rw [List.cons_append, registryExpander.search, hm]
    simp only []
    rw [ih2]
    cases registryExpander.search rest <;> rfl

/-- A scan of an input that begins with a well-formed token finds that token. -/
theorem search_tokenText (hive location rest : wstring)
    (hh : isHiveName hive = true) (hl : '>' ∉ location) :
    registryExpander.search (tokenText hive location ++ rest)
      = some ⟨[], hive, location, rest⟩ := by
  have hm := matchAt_tokenText hive location rest hh hl
  have hc : tokenText hive location ++ rest
      = '<' :: (hive ++ '\\' :: (location ++ ['>']) ++ rest) := rfl
  rw [hc] at hm ⊢
  rw [registryExpander.search, hm]

/-- The first match in a described input is its first token. -/
theorem search_assemble_cons (s : Segment) (segs : List Segment) (last : wstring)
    (h : tokensAre (s :: segs) last = true) :
    registryExpander.search (assemble (s :: segs) last)
      = some ⟨s.text, s.hive, s.location, assemble segs last⟩ := by
  simp only [tokensAre, Segment.wellFormed, Bool.and_eq_true, decide_eq_true_eq] at h
  obtain ⟨⟨⟨hh, hl⟩, hn⟩, _⟩ := h
  simp only [assemble, List.append_assoc]
  rw [search_append _ _ hn, search_tokenText _ _ _ hh hl]
  simp

/-- A described input without segments has no match. -/
theorem search_assemble_nil (last : wstring) (h : tokensAre [] last = true) :
    registryExpander.search last = none := by
  simp only [tokensAre] at h
  have := search_append last [] h
  simpa [registryExpander.search] using this

/-- What one pass of the loop adds for a token does not depend on the value `regValue` had
before. -/
theorem append_found (RegGetValue : HKEY → wstring → wstring → Option wstring)
    (hive location regValue result : wstring) :
    (if (getWindowsRegistryValue RegGetValue hive location regValue).1 = true
      then result ++ (getWindowsRegistryValue RegGetValue hive location regValue).2
      else result)
      = result ++ replacement RegGetValue hive location := by
  unfold replacement getWindowsRegistryValue
  cases registryRoot hive with
  | none => simp
  | some root =>
    simp only []
    generalize RegGetValue root (registrySubKey location) (registryValueName location) = got
    cases got <;> simp

/-- The loop, entered at a token that is followed by a described input. -/
theorem expandLoop_assemble (RegGetValue : HKEY → wstring → wstring → Option wstring)
    (last : wstring) (segs : List Segment) :
    ∀ (p hive location result regValue : wstring), tokensAre segs last = true →
      expandLoop RegGetValue ⟨p, hive, location, assemble segs last⟩ result regValue
        = result ++ p ++ replacement RegGetValue hive location
            ++ substituted RegGetValue segs last := by
  induction segs with
  | nil =>
    intro p hive location result regValue h
    have hs := search_assemble_nil last h
    rw [expandLoop]
    simp only [assemble, substituted, append_found]
    split
    · rename_i following heq
      rw [hs] at heq
      exact absurd heq (by simp)
    · rfl
  | cons s segs ih =>
    intro p hive location result regValue h
    have hs := search_assemble_cons s segs last h
    have ht : tokensAre segs last = true := by
      simp only [tokensAre, Bool.and_eq_true] at h
      exact h.2
    rw [expandLoop]
    simp only [append_found]
    split
    · rename_i following heq
      rw [hs] at heq
      simp only [Option.some.injEq] at heq
      subst heq
      rw [ih _ _ _ _ _ ht]
      simp only [substituted, List.append_assoc]
    · rename_i heq
      rw [hs] at heq
      exact absurd heq (by simp)

/-- The expansion of a described input replaces each token and keeps the texts between. -/
theorem expand_assemble (RegGetValue : HKEY → wstring → wstring → Option wstring)
    (segs : List Segment) (last : wstring) (h : tokensAre segs last = true) :
    expandWindowsRegistryStrings RegGetValue (assemble segs last)
      = substituted RegGetValue segs last := by
  unfold expandWindowsRegistryStrings
  cases segs with
  | nil =>
    rw [show assemble [] last = last from rfl, search_assemble_nil last h]
    rfl
  | cons s segs =>
    have ht : tokensAre segs last = true := by
      simp only [tokensAre, Bool.and_eq_true] at h
      exact h.2
    rw [search_assemble_cons s segs last h]
    simp only []
    rw [expandLoop_assemble RegGetValue last segs _ _ _ _ _ ht]
    simp only [substituted, List.nil_append, List.append_assoc]

/-- Where the scan for the closing `>` stops, the text before it holds no `>`. -/
theorem scan_closing (tail : wstring) (x : Char) (rest : wstring)
    (h : tail.dropWhile (fun c => c != '>') = x :: rest) :
    tail = tail.takeWhile (fun c => c != '>') ++ '>' :: rest
    ∧ '>' ∉ tail.takeWhile (fun c => c != '>') := by
  induction tail with
  | nil => simp at h
  | cons y ys ih =>
    by_cases hy : y = '>'
    · subst hy
      simp only [List.dropWhile_cons, bne_self_eq_false, Bool.false_eq_true, if_false,
        List.cons.injEq] at h
      simp [h.2]
    · have hb : (y != '>') = true := by simpa using hy
      simp only [List.dropWhile_cons, hb, if_true] at h
      have ih2 := ih h
      simp only [List.takeWhile_cons, hb, if_true, List.cons_append, List.mem_cons, not_or]
      exact ⟨by rw [← ih2.1], fun e => hy e.symm, ih2.2⟩

/-- Every match of the pattern is a well-formed token. -/
theorem matchAt_sound (str hive location rest : wstring)
    (h : registryExpander.matchAt str = some (hive, location, rest)) :
    str = tokenText hive location ++ rest ∧ isHiveName hive = true ∧ '>' ∉ location := by
  unfold registryExpander.matchAt at h
  split at h
  · rename_i c0 c1 c2 c3 c4 c5 tail
    split at h
    · rename_i hc
      obtain ⟨h0, h1, h2, h3, h4, h5⟩ := hc
      split at h
      · rename_i x rest0 heq
        have hs := scan_closing tail x rest0 heq
        simp only [Option.some.injEq, Prod.mk.injEq] at h
        obtain ⟨hh, hl, hr⟩ := h
        subst hh hl hr h0 h1 h2 h5
        refine ⟨?_, ?_, hs.2⟩
        · simp only [tokenText, List.cons_append, List.nil_append, List.append_assoc,
            List.cons.injEq, true_and]
          exact hs.1
        · simp [isHiveName, h3, h4]
      · exact absurd h (by simp)
    · exact absurd h (by simp)
  · exact absurd h (by simp)

/-- A scan that finds nothing has passed over the whole input. -/
theorem search_none (str : wstring) (h : registryExpander.search str = none) :
    noTokenStartsIn str [] = true := by
  induction str with
  | nil => rfl
  | cons c cs ih =>
    unfold registryExpander.search at h
    split at h
    · exact absurd h (by simp)
    · rename_i hm
      split at h
      · exact absurd h (by simp)
      · rename_i hs
        simp only [noTokenStartsIn, List.append_nil, hm, Option.isNone_none, ih hs, Bool.and_self]

/-- What a scan finds: a well-formed token, after a text in which no match begins. -/
theorem search_some (str : wstring) :
    ∀ m : wsmatch, registryExpander.search str = some m →
      str = m.pfx ++ tokenText m.sub1 m.sub2 ++ m.sfx
      ∧ isHiveName m.sub1 = true ∧ '>' ∉ m.sub2
      ∧ noTokenStartsIn m.pfx (tokenText m.sub1 m.sub2 ++ m.sfx) = true := by
  induction str with
  | nil => intro m h; simp [registryExpander.search] at h
  | cons c cs ih =>
    intro m h
    unfold registryExpander.search at h
    split at h
    · rename_i a b r hm
      simp only [Option.some.injEq] at h
      subst h
      have hs := matchAt_sound _ _ _ _ hm
      exact ⟨by simpa using hs.1, hs.2.1, hs.2.2, rfl⟩
    · rename_i hm
      split at h
      · rename_i m0 hs
        simp only [Option.some.injEq] at h
        subst h
        obtain ⟨e, hh, hl, hn⟩ := ih m0 hs
        refine ⟨?_, hh, hl, ?_⟩
        · simp only [List.cons_append, List.cons.injEq, true_and]
          simpa using e
        · have e2 : c :: m0.pfx ++ (tokenText m0.sub1 m0.sub2 ++ m0.sfx) = c :: cs := by
            simp only [List.cons_append, List.cons.injEq, true_and]
            simpa using e.symm
          simp only [noTokenStartsIn, e2, hm, Option.isNone_none, hn, Bool.and_self]
      · exact absurd h (by simp)

/-- A scan of an input that contains a well-formed token finds a match. -/
theorem search_of_token (pre hive location post : wstring)
    (hh : isHiveName hive = true) (hl : '>' ∉ location) :
    registryExpander.search (pre ++ tokenText hive location ++ post) ≠ none := by
  induction pre with
  | nil =>
    rw [List.nil_append, search_tokenText _ _ _ hh hl]
    simp
  | cons c cs ih =>
    simp only [List.cons_append]
    unfold registryExpander.search
    split
    · simp
    · split
      · simp
      · rename_i hs
        exact absurd hs ih

/-- Every input is described by its tokens. -/
theorem exists_description (n : Nat) :
    ∀ str : wstring, str.length ≤ n →
      ∃ (segs : List Segment) (last : wstring),
        tokensAre segs last = true ∧ assemble segs last = str := by
  induction n with
  | zero =>
    intro str hlen
    have : str = [] := List.length_eq_zero.mp (Nat.le_zero.mp hlen)
    subst this
    exact ⟨[], [], rfl, rfl⟩
  | succ n ih =>
    intro str hlen
    cases hs : registryExpander.search str with
    | none => exact ⟨[], str, search_none str hs, rfl⟩
    | some m =>
      obtain ⟨e, hh, hl, hn⟩ := search_some str m hs
      have hlt : m.sfx.length ≤ n := by
        have := congrArg List.length e
        simp only [List.length_append, tokenText, List.length_cons] at this
        omega
      obtain ⟨segs, last, ht, ha⟩ := ih m.sfx hlt
      refine ⟨⟨m.pfx, m.sub1, m.sub2⟩ :: segs, last, ?_, ?_⟩
      · simp only [tokensAre, Segment.wellFormed, hh, ha, hn, ht, Bool.and_eq_true,
          decide_eq_true_eq, and_true, true_and]
        exact hl
      · simp only [assemble, ha]
        exact e.symm

/-- C12: `expandWindowsRegistryStrings` returns an input that contains no token of the form
`<HKxx\path>` as it is; and for an input `p0 ++ t1 ++ p1 ++ ... ++ tn ++ pn` whose tokens
are `t1 .. tn`, all of which the registry resolves, to `v1 .. vn`, it returns
`p0 ++ v1 ++ p1 ++ ... ++ vn ++ pn`. -/
theorem expand_substitutes_tokens (RegGetValue : HKEY → wstring → wstring → Option wstring)
    (str : wstring) (segs : List (Segment × wstring)) (last : wstring)
    (hnone : ¬ containsToken str)
    (htokens : tokensAre (segs.map Prod.fst) last = true)
    (hresolve : ∀ sv ∈ segs, ∀ regValue : wstring,
      getWindowsRegistryValue RegGetValue sv.1.hive sv.1.location regValue = (true, sv.2)) :
    expandWindowsRegistryStrings RegGetValue str = str
    ∧ expandWindowsRegistryStrings RegGetValue (assemble (segs.map Prod.fst) last)
        = resolvedText segs last := by
  constructor
  · have hs : registryExpander.search str = none := by
      cases h : registryExpander.search str with
      | none => rfl
      | some m =>
        obtain ⟨e, hh, hl, _⟩ := search_some str m h
        exact absurd ⟨m.pfx, m.sub1, m.sub2, m.sfx, hh, hl, e⟩ hnone
    unfold expandWindowsRegistryStrings
    rw [hs]
  · rw [expand_assemble RegGetValue _ last htokens]
    clear htokens
    induction segs with
    | nil => rfl
    | cons sv segs ih =>
      have hv := hresolve sv (List.mem_cons_self _ _) []
      have ih2 := ih (fun x hx => hresolve x (List.mem_cons_of_mem _ hx))
      simp only [List.map_cons, substituted, resolvedText, replacement, hv, if_true, ih2]

/-- C12 at two inputs, with the example registry: `x<HKlm\a>y`, which holds no token, is
returned as it is, and `a<HKLM\S\v>b<HKCR\k>c` becomes `aVbWc`. -/
theorem expand_substitutes_tokens_witness :
    expandWindowsRegistryStrings exampleRegistry "x<HKlm\\a>y".toList = "x<HKlm\\a>y".toList
    ∧ expandWindowsRegistryStrings exampleRegistry "a<HKLM\\S\\v>b<HKCR\\k>c".toList
        = "aVbWc".toList := by
  have hnone : ¬ containsToken "x<HKlm\\a>y".toList := by
    rintro ⟨pre, hive, location, post, hh, hl, e⟩
    have := search_of_token pre hive location post hh hl
    rw [← e] at this
    exact this (by decide)
  have h := expand_substitutes_tokens exampleRegistry "x<HKlm\\a>y".toList
    [(⟨"a".toList, "HKLM".toList, "S\\v".toList⟩, "V".toList),
      (⟨"b".toList, "HKCR".toList, "k".toList⟩, "W".toList)] "c".toList hnone (by decide)
    (by
      intro sv hsv regValue
      simp only [List.mem_cons, List.mem_singleton, List.not_mem_nil, or_false] at hsv
      rcases hsv with rfl | rfl <;> rfl)
  exact h

/-- C15: `getWindowsRegistryValue` returns `false` and leaves its result argument as it was
when the hive is none of `HKLM`, `HKCU`, `HKCR`, and when the registry lookup fails; and in an
input whose tokens are `t1 .. tn`, each one resolved to a value or not resolved in one of those
two ways, `expandWindowsRegistryStrings` replaces every resolved token by its value and every
other token by the empty text, whatever was resolved before it. -/
theorem expand_drops_unresolved (RegGetValue : HKEY → wstring → wstring → Option wstring)
    (segs : List (Segment × Option wstring)) (last : wstring)
    (htokens : tokensAre (segs.map Prod.fst) last = true)
    (hresolved : ∀ so ∈ segs, ∀ v : wstring, so.2 = some v → ∀ regValue : wstring,
      getWindowsRegistryValue RegGetValue so.1.hive so.1.location regValue = (true, v))
    (hunresolved : ∀ so ∈ segs, so.2 = none →
      (so.1.hive ≠ ['H', 'K', 'L', 'M'] ∧ so.1.hive ≠ ['H', 'K', 'C', 'U']
        ∧ so.1.hive ≠ ['H', 'K', 'C', 'R'])
      ∨ ∃ root, registryRoot so.1.hive = some root
          ∧ RegGetValue root (registrySubKey so.1.location) (registryValueName so.1.location)
              = none) :
    (∀ so ∈ segs, so.2 = none → ∀ regValue : wstring,
      getWindowsRegistryValue RegGetValue so.1.hive so.1.location regValue = (false, regValue))
    ∧ expandWindowsRegistryStrings RegGetValue (assemble (segs.map Prod.fst) last)
        = outcomeText segs last := by
  have hfalse : ∀ so ∈ segs, so.2 = none → ∀ regValue : wstring,
      getWindowsRegistryValue RegGetValue so.1.hive so.1.location regValue
        = (false, regValue) := by
    intro so hso hn regValue
    rcases hunresolved so hso hn with ⟨h1, h2, h3⟩ | ⟨root, hr, hg⟩
    · simp only [getWindowsRegistryValue, registryRoot, if_neg h1, if_neg h2, if_neg h3]
    · simp only [getWindowsRegistryValue, hr, hg]
  refine ⟨hfalse, ?_⟩
  rw [expand_assemble RegGetValue _ last htokens]
  clear htokens hunresolved
  induction segs with
  | nil => rfl
  | cons so segs ih =>
    have ih2 := ih (fun x hx => hresolved x (List.mem_cons_of_mem _ hx))
      (fun x hx => hfalse x (List.mem_cons_of_mem _ hx))
    cases ho : so.2 with
    | none =>
      have hv := hfalse so (List.mem_cons_self _ _) ho []
      simp only [List.map_cons, substituted, outcomeText, replacement, hv, ho, ih2,
        Bool.false_eq_true, if_false, Option.getD_none]
    | some v =>
      have hv := hresolved so (List.mem_cons_self _ _) v ho []
      simp only [List.map_cons, substituted, outcomeText, replacement, hv, ho, ih2, if_true,
        Option.getD_some]

/-- C15 with the example registry: in `a<HKLM\S\v>b<HKZZ\x>c<HKCU\q>d` the first token is
resolved to `V`, the hive of the second is not known and the lookup of the third fails; the
output is `aVbcd`, and `V` is not written again. -/
theorem expand_drops_unresolved_witness :
    expandWindowsRegistryStrings exampleRegistry "a<HKLM\\S\\v>b<HKZZ\\x>c<HKCU\\q>d".toList
      = "aVbcd".toList
    ∧ getWindowsRegistryValue exampleRegistry "HKZZ".toList "x".toList "V".toList
      = (false, "V".toList) := by
  have h := expand_drops_unresolved exampleRegistry
    [(⟨"a".toList, "HKLM".toList, "S\\v".toList⟩, some "V".toList),
      (⟨"b".toList, "HKZZ".toList, "x".toList⟩, none),
      (⟨"c".toList, "HKCU".toList, "q".toList⟩, none)] "d".toList (by decide)
    (by
      intro so hso v hv regValue
      simp only [List.mem_cons, List.mem_singleton, List.not_mem_nil, or_false] at hso
      rcases hso with rfl | rfl | rfl
      · cases hv; rfl
      · cases hv
      · cases hv)
    (by
      intro so hso hn
      simp only [List.mem_cons, List.mem_singleton, List.not_mem_nil, or_false] at hso
      rcases hso with rfl | rfl | rfl
      · cases hn
      · exact Or.inl (by decide)
      · exact Or.inr ⟨.HKEY_CURRENT_USER, by decide, rfl⟩)
  exact ⟨h.2, h.1 _ (List.mem_cons_of_mem _ (List.mem_cons_self _ _)) rfl "V".toList⟩

end xloil
